import Mathlib

/-!
# Verification of the Masonry pass / box-constraints core (Xilem)

A shallow embedding, in Lean 4, of the parts of the repository needed to
settle the claims about it:

* `masonry_core/src/core/box_constraints.rs` — the `BoxConstraints` value
  type and its operations (`new`, `tight`, `loosen`, `constrain`, `shrink`,
  `contains`, `constrain_aspect_ratio`, …).
* `masonry/src/widgets/image.rs` — the `Image` widget's `layout` method.
* `masonry_core/src/passes/mutate.rs` — `mutate_widget` and
  `run_mutate_pass`.

`f64` values are modelled exactly, by the type `FF` below: a rational
number, one of the two infinities, or NaN.  Arithmetic on finite values is
exact rational arithmetic; the special-value behaviour (NaN propagation,
division by zero, multiplication of zero by infinity, the NaN-ignoring
`max`/`min`, comparisons that are false on NaN) follows IEEE 754 as
implemented by Rust's `f64`.  Signed zero is not distinguished from zero;
none of the properties proved here depend on the sign of a zero.

`f64` also rounds finite arithmetic to nearest and overflows to ±∞, which
the exact model does not reproduce.  Every claim proved here is therefore
stated in a regime where the model and `f64` agree: either the operations
involved are exact in `f64` at the quantified inputs (comparisons,
`max`/`min`, `ceil`, the assert and early-return paths), or the property
is insensitive to the rounding of the one inexact operation (the clamped
`shrink` under non-negative finite insets, where no overflow can occur
and rounding preserves monotonicity), or it depends only on re-computing
a bit-identical expression (idempotence on the computed aspect-ratio
line).
-/

/-- Model of Rust's `f64`: NaN, the two infinities, or an exact finite
value (a rational).  Finite arithmetic is exact. -/
inductive FF : Type where
  | nan : FF
  | pinf : FF
  | ninf : FF
  | fin (q : ℚ) : FF
deriving DecidableEq

namespace FF

/-- `f64::is_finite`. -/
def isFinite : FF → Bool
  | fin _ => true
  | _ => false

/-- `f64::is_nan`. -/
def isNan : FF → Bool
  | nan => true
  | _ => false

/-- `f64::is_infinite`. -/
def isInfinite : FF → Bool
  | pinf => true
  | ninf => true
  | _ => false

/-- IEEE `<=` on `f64`: false whenever either operand is NaN. -/
def le : FF → FF → Bool
  | nan, _ => false
  | _, nan => false
  | ninf, _ => true
  | _, pinf => true
  | pinf, _ => false
  | _, ninf => false
  | fin a, fin b => decide (a ≤ b)

/-- IEEE `<` on `f64`: false whenever either operand is NaN. -/
def lt : FF → FF → Bool
  | nan, _ => false
  | _, nan => false
  | ninf, ninf => false
  | ninf, _ => true
  | _, ninf => false
  | pinf, _ => false
  | _, pinf => true
  | fin a, fin b => decide (a < b)

/-- IEEE negation. -/
def neg : FF → FF
  | nan => nan
  | pinf => ninf
  | ninf => pinf
  | fin a => fin (-a)

/-- `f64::abs`. -/
def abs : FF → FF
  | nan => nan
  | pinf => pinf
  | ninf => pinf
  | fin a => fin |a|

/-- IEEE addition (exact in the finite case). -/
def add : FF → FF → FF
  | nan, _ => nan
  | _, nan => nan
  | pinf, ninf => nan
  | ninf, pinf => nan
  | pinf, _ => pinf
  | _, pinf => pinf
  | ninf, _ => ninf
  | _, ninf => ninf
  | fin a, fin b => fin (a + b)

/-- IEEE subtraction (exact in the finite case). -/
def sub : FF → FF → FF
  | nan, _ => nan
  | _, nan => nan
  | pinf, pinf => nan
  | ninf, ninf => nan
  | pinf, _ => pinf
  | ninf, _ => ninf
  | fin _, pinf => ninf
  | fin _, ninf => pinf
  | fin a, fin b => fin (a - b)

/-- IEEE multiplication (exact in the finite case); `0 * ∞ = NaN`. -/
def mul : FF → FF → FF
  | nan, _ => nan
  | _, nan => nan
  | pinf, pinf => pinf
  | pinf, ninf => ninf
  | ninf, pinf => ninf
  | ninf, ninf => pinf
  | pinf, fin b => if b = 0 then nan else if 0 < b then pinf else ninf
  | fin a, pinf => if a = 0 then nan else if 0 < a then pinf else ninf
  | ninf, fin b => if b = 0 then nan else if 0 < b then ninf else pinf
  | fin a, ninf => if a = 0 then nan else if 0 < a then ninf else pinf
  | fin a, fin b => fin (a * b)

/-- IEEE division (exact in the finite case); `x / 0 = ±∞` for `x ≠ 0`,
`0 / 0 = NaN`, `∞ / ∞ = NaN`, `x / ∞ = 0`. -/
def div : FF → FF → FF
  | nan, _ => nan
  | _, nan => nan
  | pinf, pinf => nan
  | pinf, ninf => nan
  | ninf, pinf => nan
  | ninf, ninf => nan
  | pinf, fin b => if 0 ≤ b then pinf else ninf
  | ninf, fin b => if 0 ≤ b then ninf else pinf
  | fin _, pinf => fin 0
  | fin _, ninf => fin 0
  | fin a, fin b =>
      if b = 0 then (if a = 0 then nan else if 0 < a then pinf else ninf)
      else fin (a / b)

/-- `f64::recip`, i.e. `1.0 / self`. -/
def recip (x : FF) : FF := div (fin 1) x

/-- Rust `f64::max`: ignores a NaN operand, otherwise the larger value. -/
def fmax : FF → FF → FF
  | nan, b => b
  | a, nan => a
  | ninf, b => b
  | a, ninf => a
  | pinf, _ => pinf
  | _, pinf => pinf
  | fin a, fin b => fin (max a b)

/-- Rust `f64::min`: ignores a NaN operand, otherwise the smaller value. -/
def fmin : FF → FF → FF
  | nan, b => b
  | a, nan => a
  | pinf, b => b
  | a, pinf => a
  | ninf, _ => ninf
  | _, ninf => ninf
  | fin a, fin b => fin (min a b)

/-- kurbo's `FloatExt::expand` on `f64`: `self.abs().ceil().copysign(self)`,
i.e. rounding away from zero to an integer.  Infinities and NaN map to
themselves. -/
def expand : FF → FF
  | nan => nan
  | pinf => pinf
  | ninf => ninf
  | fin a => fin (if 0 ≤ a then (⌈a⌉ : ℚ) else -(⌈-a⌉ : ℚ))

end FF

/-- kurbo's `Size`: a 2D size, with `f64` components modelled by `FF`. -/
structure Size where
  width : FF
  height : FF
deriving DecidableEq

namespace Size

/-- `Size::ZERO`. -/
def ZERO : Size := ⟨FF.fin 0, FF.fin 0⟩

/-- kurbo `Size::expand`: round each component away from zero. -/
def expand (s : Size) : Size := ⟨s.width.expand, s.height.expand⟩

/-- kurbo `Size::clamp(min, max)`: componentwise
`self.width.max(min.width).min(max.width)` (Rust `f64::max`/`f64::min`). -/
def clamp (s mn mx : Size) : Size :=
  ⟨(s.width.fmax mn.width).fmin mx.width,
   (s.height.fmax mn.height).fmin mx.height⟩

/-- kurbo `Size::area`: `self.width * self.height`. -/
def area (s : Size) : FF := s.width.mul s.height

/-- kurbo `Size::is_zero_area`: `self.area() == 0.0`. -/
def is_zero_area (s : Size) : Bool := decide (s.area = FF.fin 0)

end Size

/-- `BoxConstraints` from `masonry_core/src/core/box_constraints.rs`:
a minimum and maximum size. -/
structure BoxConstraints where
  min : Size
  max : Size
deriving DecidableEq

namespace BoxConstraints

/-- `BoxConstraints::UNBOUNDED`. -/
def UNBOUNDED : BoxConstraints :=
  ⟨Size.ZERO, ⟨FF.pinf, FF.pinf⟩⟩

/-- `BoxConstraints::new(min, max)`: store both sizes rounded away from
zero. -/
def new (mn mx : Size) : BoxConstraints :=
  ⟨mn.expand, mx.expand⟩

/-- `BoxConstraints::tight(size)`. -/
def tight (size : Size) : BoxConstraints :=
  let size := size.expand
  ⟨size, size⟩

/-- `BoxConstraints::loosen()`: zero minimum, same maximum. -/
def loosen (self : BoxConstraints) : BoxConstraints :=
  ⟨Size.ZERO, self.max⟩

/-- `BoxConstraints::constrain(size)`:
`size.into().expand().clamp(self.min, self.max)`. -/
def constrain (self : BoxConstraints) (size : Size) : Size :=
  size.expand.clamp self.min self.max

/-- `BoxConstraints::is_width_bounded()`. -/
def is_width_bounded (self : BoxConstraints) : Bool := self.max.width.isFinite

/-- `BoxConstraints::is_height_bounded()`. -/
def is_height_bounded (self : BoxConstraints) : Bool := self.max.height.isFinite

/-- `BoxConstraints::bounded_or(size)`. -/
def bounded_or (self : BoxConstraints) (size : Size) : Size :=
  ⟨if self.is_width_bounded then self.max.width else size.width,
   if self.is_height_bounded then self.max.height else size.height⟩

/-- `BoxConstraints::shrink(diff)`. -/
def shrink (self : BoxConstraints) (diff : Size) : BoxConstraints :=
  let diff := diff.expand
  let mn : Size := ⟨(self.min.width.sub diff.width).fmax (FF.fin 0),
                    (self.min.height.sub diff.height).fmax (FF.fin 0)⟩
  let mx : Size := ⟨(self.max.width.sub diff.width).fmax (FF.fin 0),
                    (self.max.height.sub diff.height).fmax (FF.fin 0)⟩
  new mn mx

/-- `BoxConstraints::contains(size)`. -/
def contains (self : BoxConstraints) (size : Size) : Bool :=
  (self.min.width.le size.width && size.width.le self.max.width)
    && (self.min.height.le size.height && size.height.le self.max.height)

/-- The body of `BoxConstraints::constrain_aspect_ratio` after its four
`assert!`s have passed.  A direct transcription of the `if` cascade. -/
def constrain_aspect_ratio_body (self : BoxConstraints)
    (aspect_ratio width : FF) : Size :=
  let ideal_size : Size := ⟨width, width.mul aspect_ratio⟩
  let aspect_ratio := aspect_ratio.abs
  let width := width.abs
  if self.contains ideal_size then ideal_size
  else
    let min_w_min_h := self.min.height.div self.min.width
    let max_w_min_h := self.min.height.div self.max.width
    let min_w_max_h := self.max.height.div self.min.width
    let max_w_max_h := self.max.height.div self.max.width
    if min_w_max_h.lt aspect_ratio then
      ⟨self.min.width, self.max.height⟩
    else if aspect_ratio.lt max_w_min_h then
      ⟨self.max.width, self.min.height⟩
    else if min_w_min_h.lt aspect_ratio then
      if width.lt self.min.width then
        ⟨self.min.width, self.min.width.mul aspect_ratio⟩
      else if aspect_ratio.lt max_w_max_h then
        ⟨self.max.width, self.max.width.mul aspect_ratio⟩
      else
        ⟨self.max.height.mul aspect_ratio.recip, self.max.height⟩
    else
      if width.lt self.min.width then
        ⟨self.min.height.mul aspect_ratio.recip, self.min.height⟩
      else if max_w_max_h.lt aspect_ratio then
        ⟨self.max.height.mul aspect_ratio.recip, self.max.height⟩
      else
        ⟨self.max.width, self.max.width.mul aspect_ratio⟩

/-- `BoxConstraints::constrain_aspect_ratio(aspect_ratio, width)`.
`none` models a panic of one of the four leading `assert!`s
(`aspect_ratio`/`width` must be finite and `>= 0.0`). -/
def constrain_aspect_ratio (self : BoxConstraints)
    (aspect_ratio width : FF) : Option Size :=
  if !aspect_ratio.isFinite then none
  else if !width.isFinite then none
  else if !(FF.fin 0).le aspect_ratio then none
  else if !(FF.fin 0).le width then none
  else some (self.constrain_aspect_ratio_body aspect_ratio width)

/-- The documented type invariant of `BoxConstraints` (spec §3):
`0 ≤ min ≤ max` componentwise and `min` finite. -/
def isValid (self : BoxConstraints) : Bool :=
  (FF.fin 0).le self.min.width && self.min.width.le self.max.width
    && (FF.fin 0).le self.min.height && self.min.height.le self.max.height
    && self.min.width.isFinite && self.min.height.isFinite

/-- The full construction invariant (spec §3): validity plus every
component already rounded away from zero. -/
def invariantHolds (self : BoxConstraints) : Bool :=
  self.isValid
    && decide (self.min.width.expand = self.min.width)
    && decide (self.min.height.expand = self.min.height)
    && decide (self.max.width.expand = self.max.width)
    && decide (self.max.height.expand = self.max.height)

end BoxConstraints

/-- `ObjectFit` from masonry: the policy mapping an image rectangle into
the allotted size. -/
inductive ObjectFit : Type where
  | Contain
  | Cover
  | Fill
  | FitHeight
  | FitWidth
  | None
  | ScaleDown
deriving DecidableEq

/-- The `Image` widget (`masonry/src/widgets/image.rs`): an image buffer
(we keep only its pixel dimensions, which is all `layout` reads) and an
object-fit mode. -/
structure Image where
  width : ℕ
  height : ℕ
  object_fit : ObjectFit
deriving DecidableEq

/-- `Image::layout` (`masonry/src/widgets/image.rs`, lines 82–116).
`none` models a panic (the only possible one is `constrain_aspect_ratio`'s
asserts, in the `Contain` / `ScaleDown` arms). -/
def Image.layout (self : Image) (bc : BoxConstraints) : Option Size :=
  let image_size : Size := ⟨FF.fin self.width, FF.fin self.height⟩
  if image_size.is_zero_area then some bc.min
  else
    let image_aspect_ratio := image_size.height.div image_size.width
    match self.object_fit with
    | .Contain => bc.constrain_aspect_ratio image_aspect_ratio image_size.width
    | .Cover => some ⟨bc.max.width, bc.max.width.mul image_aspect_ratio⟩
    | .Fill => some bc.max
    | .FitHeight => some ⟨bc.max.height.div image_aspect_ratio, bc.max.height⟩
    | .FitWidth => some ⟨bc.max.width, bc.max.width.mul image_aspect_ratio⟩
    | .None => some image_size
    | .ScaleDown =>
        if !bc.contains image_size then
          bc.constrain_aspect_ratio image_aspect_ratio image_size.width
        else some image_size

/-- The per-kind dirty/validity flags of a `WidgetState` (spec §3):
layout-invalid, paint-invalid, accessibility-invalid,
subtree-has-pending-mutation. -/
structure Flags where
  layoutInvalid : Bool
  paintInvalid : Bool
  accessInvalid : Bool
  pendingMutation : Bool
deriving DecidableEq

namespace Flags

/-- Per-kind (componentwise) logical OR of two flag records. -/
def orF (a b : Flags) : Flags :=
  ⟨a.layoutInvalid || b.layoutInvalid, a.paintInvalid || b.paintInvalid,
   a.accessInvalid || b.accessInvalid, a.pendingMutation || b.pendingMutation⟩

/-- All flags clear. -/
def zero : Flags := ⟨false, false, false, false⟩

theorem orF_zero (a : Flags) : orF a zero = a := by
  cases a; simp [orF, zero]

theorem orF_assoc (a b c : Flags) : orF (orF a b) c = orF a (orF b c) := by
  cases a; cases b; cases c; simp [orF, Bool.or_assoc]

end Flags

/-- Modelled from the spec: `WidgetState` (§3) is not under `src/`; of its
fields only the local per-kind invalidity flags and their aggregated
versions matter to the claims. -/
structure WidgetState where
  localFlags : Flags
  aggFlags : Flags
deriving DecidableEq

/-- Modelled from the spec: the widget tree held by the arena (§3, §4.2) is
not under `src/`.  A node owns its derived-state record and an ordered list
of children. -/
inductive WTree : Type where
  | node (state : WidgetState) (children : List WTree)

/-- The state record at the root of a subtree. -/
def WTree.rootState : WTree → WidgetState
  | .node st _ => st

/-- The children of the root of a subtree. -/
def WTree.childrenOf : WTree → List WTree
  | .node _ cs => cs

mutual

/-- The per-kind OR of the local flags of every node in the subtree. -/
def subtreeOr : WTree → Flags
  | .node st cs => Flags.orF st.localFlags (subtreeOrList cs)

/-- The per-kind OR of the local flags of every node of every tree in the
list. -/
def subtreeOrList : List WTree → Flags
  | [] => Flags.zero
  | t :: ts => Flags.orF (subtreeOr t) (subtreeOrList ts)

end

/-- The OR of the *aggregated* flags of the roots of the trees in the list
— what one O(1)-per-child fold over direct children can see. -/
def aggOrList : List WTree → Flags
  | [] => Flags.zero
  | t :: ts => Flags.orF t.rootState.aggFlags (aggOrList ts)

/-- Modelled from the spec: `merge_state_up` (used by `mutate_widget`,
declared in `masonry_core/src/passes/mod.rs` which is not under `src/`).
Per spec §4.3(d) it recomputes the node's aggregated flags by folding in
the flags of its direct children (their aggregated flags, for O(depth)
total cost), together with the node's own local flags. -/
def merge_state_up : WTree → WTree
  | .node st cs => .node { st with aggFlags := Flags.orF st.localFlags (aggOrList cs) } cs

/-- Replace the `i`-th element of a list by `g` of it; out-of-range
indices leave the list unchanged. -/
def updateNth (g : WTree → WTree) : List WTree → ℕ → List WTree
  | [], _ => []
  | t :: ts, 0 => g t :: ts
  | t :: ts, n + 1 => t :: updateNth g ts n

/-- `mutate_widget` (`masonry_core/src/passes/mutate.rs`, lines 10–56),
with the target widget addressed by its path of child indices from the
root (the arena's id → node resolution is not under `src/`).  The
caller-supplied closure is modelled by its effect `f` on the target's
local flags.  On the way back out of the recursion the aggregated state is
recomputed at the target and then at each successive ancestor — the
`merge_state_up` loop of lines 47–53. -/
def mutate_widget (f : Flags → Flags) : List ℕ → WTree → WTree
  | [], .node st cs =>
      merge_state_up (.node { st with localFlags := f st.localFlags } cs)
  | i :: p, .node st cs =>
      merge_state_up (.node st (updateNth (mutate_widget f p) cs i))

/-- Look up the node reached from the root by a path of child indices. -/
def nodeAt : WTree → List ℕ → Option WTree
  | t, [] => some t
  | .node _ cs, i :: p =>
      match cs.get? i with
      | some c => nodeAt c p
      | none => none

/-- The aggregation invariant of spec §3/§8: at every node of the tree,
each per-kind aggregated flag equals the OR of the node's own local flag
and all its descendants' local flags. -/
inductive AggOk : WTree → Prop where
  | node {st : WidgetState} {cs : List WTree} :
      st.aggFlags = Flags.orF st.localFlags (subtreeOrList cs) →
      (∀ c ∈ cs, AggOk c) → AggOk (.node st cs)

/-- Modelled from the spec: a deferred mutation (§4.3): a target widget id
(path), the closure's effect on the target's local flags, any further
mutations the closure itself enqueues, and a tag identifying the pair in
the execution log. -/
inductive Callback : Type where
  | mk (id : List ℕ) (tag : ℕ) (act : Flags → Flags) (enq : List Callback)

/-- The target id of a deferred mutation. -/
def Callback.id : Callback → List ℕ
  | .mk i _ _ _ => i

/-- The identifying tag of a deferred mutation. -/
def Callback.tag : Callback → ℕ
  | .mk _ g _ _ => g

/-- The closure's effect on the target's local flags. -/
def Callback.act : Callback → (Flags → Flags)
  | .mk _ _ a _ => a

/-- The mutations the closure enqueues while it runs. -/
def Callback.enq : Callback → List Callback
  | .mk _ _ _ e => e

/-- Modelled from the spec: the parts of `RenderRoot` that the mutate pass
touches — the widget tree and `global_state.mutate_callbacks`, the
process-wide pending list (§4.3).  `execLog` is instrumentation recording,
in order, the tag of every mutation executed via `mutate_widget`. -/
structure RenderRoot where
  tree : WTree
  mutate_callbacks : List Callback
  execLog : List ℕ

/-- Running one queued callback through `mutate_widget` (the loop body of
`run_mutate_pass`): the closure mutates its target (and its `mutate_later`
calls append to the pending list), and the execution is logged. -/
def mutate_widget_entry (root : RenderRoot) (cb : Callback) : RenderRoot :=
  { tree := mutate_widget cb.act cb.id root.tree,
    mutate_callbacks := root.mutate_callbacks ++ cb.enq,
    execLog := root.execLog ++ [cb.tag] }

/-- `run_mutate_pass` (`masonry_core/src/passes/mutate.rs`, lines 61–66):
`std::mem::take` empties the pending list, then each taken callback is run
through `mutate_widget` in order. -/
def run_mutate_pass (root : RenderRoot) : RenderRoot :=
  let callbacks := root.mutate_callbacks
  let root := { root with mutate_callbacks := [] }
  callbacks.foldl mutate_widget_entry root

namespace FF

theorem ne_nan_of_le_left {a b : FF} (h : a.le b = true) : a ≠ nan := by
  cases a <;> simp [le] at h ⊢

theorem ne_nan_of_le_right {a b : FF} (h : a.le b = true) : b ≠ nan := by
  cases a <;> cases b <;> simp [le] at h ⊢

theorem le_refl_of_ne_nan {a : FF} (h : a ≠ nan) : a.le a = true := by
  cases a <;> simp [le] at h ⊢

theorem le_of_not_le {a b : FF} (h : ¬ a.le b = true) (ha : a ≠ nan)
    (hb : b ≠ nan) : b.le a = true := by
  cases a <;> cases b <;> simp [le] at h ha hb ⊢
  linarith

theorem le_trans {a b c : FF} (h1 : a.le b = true) (h2 : b.le c = true) :
    a.le c = true := by
  cases a <;> cases b <;> cases c <;> simp [le] at h1 h2 ⊢
  all_goals linarith

theorem le_fmax_right {a b : FF} (hb : b ≠ nan) : b.le (a.fmax b) = true := by
  cases a <;> cases b <;> simp [le, fmax] at hb ⊢

theorem fmax_ne_nan {a b : FF} (hb : b ≠ nan) : a.fmax b ≠ nan := by
  cases a <;> cases b <;> simp [fmax] at hb ⊢

theorem fmin_le_right {a b : FF} (hb : b ≠ nan) : (a.fmin b).le b = true := by
  cases a <;> cases b <;> simp [le, fmin] at hb ⊢

theorem le_fmin {a b c : FF} (h1 : c.le a = true) (h2 : c.le b = true) :
    c.le (a.fmin b) = true := by
  cases a <;> cases b <;> cases c <;> simp [le, fmin] at h1 h2 ⊢ <;> simp [le_min_iff, h1, h2]

end FF

namespace FF

theorem expand_isFinite {a : FF} (h : a.isFinite = true) :
    a.expand.isFinite = true := by
  cases a <;> simp [isFinite, expand] at h ⊢

theorem expand_nonneg {a : FF} (h : (fin 0).le a = true) :
    (fin 0).le a.expand = true := by
  cases a <;> simp [le, expand] at h ⊢
  rw [if_pos h]
  positivity

theorem expand_mono_nonneg {a b : FF} (ha : (fin 0).le a = true)
    (h : a.le b = true) : a.expand.le b.expand = true := by
  cases a <;> cases b <;> simp [le, expand] at ha h ⊢
  rw [if_pos ha, if_pos (ha.trans h)]
  exact_mod_cast Int.ceil_le_ceil h

theorem expand_expand (a : FF) : a.expand.expand = a.expand := by
  cases a with
  | fin q =>
      by_cases h : (0:ℚ) ≤ q
      · simp only [expand, if_pos h]
        rw [if_pos (by positivity : (0:ℚ) ≤ (⌈q⌉ : ℚ))]
        rw [Int.ceil_intCast]
      · simp only [expand, if_neg h]
        push_neg at h
        have h1 : (0:ℚ) < -q := by linarith
        have h2 : (1 : ℤ) ≤ ⌈-q⌉ := Int.ceil_pos.mpr h1
        have h3 : ¬ (0:ℚ) ≤ -(⌈-q⌉ : ℚ) := by
          push_neg
          have : (1:ℚ) ≤ (⌈-q⌉ : ℚ) := by exact_mod_cast h2
          linarith
        rw [if_neg h3]
        congr 1
        have h4 : - - (⌈-q⌉ : ℚ) = ((⌈-q⌉ : ℤ) : ℚ) := by ring
        rw [h4, Int.ceil_intCast]
  | nan => rfl
  | pinf => rfl
  | ninf => rfl

end FF

/-- Shared helper: when the ideal size `(v, v * ar)` is inside the box and
the two arguments pass the asserts, `constrain_aspect_ratio` returns the
ideal size unchanged (the early-return branch of the source). -/
theorem car_of_contains (bc : BoxConstraints) (ar v : FF)
    (har : ar.isFinite = true) (har0 : (FF.fin 0).le ar = true)
    (hv : v.isFinite = true) (hv0 : (FF.fin 0).le v = true)
    (hcont : bc.contains ⟨v, v.mul ar⟩ = true) :
    bc.constrain_aspect_ratio ar v = some ⟨v, v.mul ar⟩ := by
  simp only [BoxConstraints.constrain_aspect_ratio, har, hv, har0, hv0,
    Bool.not_true, Bool.false_eq_true, if_false]
  simp only [BoxConstraints.constrain_aspect_ratio_body, hcont, if_true]

/-- C4: for every `BoxConstraints` whose `min ≤ max` componentwise and any
input size `s` whatsoever (NaN and infinite components included),
`constrain(s)` returns a size `(w, h)` with `min.width ≤ w ≤ max.width`
and `min.height ≤ h ≤ max.height`. -/
theorem constrain_returns_size_within_bounds (bc : BoxConstraints)
    (hw : bc.min.width.le bc.max.width = true)
    (hh : bc.min.height.le bc.max.height = true) (s : Size) :
    bc.min.width.le (bc.constrain s).width = true
      ∧ (bc.constrain s).width.le bc.max.width = true
      ∧ bc.min.height.le (bc.constrain s).height = true
      ∧ (bc.constrain s).height.le bc.max.height = true := by
  have hwn : bc.min.width ≠ FF.nan := FF.ne_nan_of_le_left hw
  have hwx : bc.max.width ≠ FF.nan := FF.ne_nan_of_le_right hw
  have hhn : bc.min.height ≠ FF.nan := FF.ne_nan_of_le_left hh
  have hhx : bc.max.height ≠ FF.nan := FF.ne_nan_of_le_right hh
  refine ⟨?_, ?_, ?_, ?_⟩
  · exact FF.le_fmin (FF.le_fmax_right hwn) hw
  · exact FF.fmin_le_right hwx
  · exact FF.le_fmin (FF.le_fmax_right hhn) hh
  · exact FF.fmin_le_right hhx

/-- Witness for C4 at a concrete constraint box and a size with one NaN
component. -/
theorem constrain_returns_size_within_bounds_witness :
    ((BoxConstraints.mk ⟨FF.fin 1, FF.fin 2⟩ ⟨FF.fin 3, FF.fin 4⟩).min.width.le
        (BoxConstraints.mk ⟨FF.fin 1, FF.fin 2⟩ ⟨FF.fin 3, FF.fin 4⟩).max.width = true)
      ∧ ((BoxConstraints.mk ⟨FF.fin 1, FF.fin 2⟩ ⟨FF.fin 3, FF.fin 4⟩).min.width.le
          ((BoxConstraints.mk ⟨FF.fin 1, FF.fin 2⟩ ⟨FF.fin 3, FF.fin 4⟩).constrain
            ⟨FF.fin 10, FF.nan⟩).width = true
        ∧ ((BoxConstraints.mk ⟨FF.fin 1, FF.fin 2⟩ ⟨FF.fin 3, FF.fin 4⟩).constrain
            ⟨FF.fin 10, FF.nan⟩).width.le
          (BoxConstraints.mk ⟨FF.fin 1, FF.fin 2⟩ ⟨FF.fin 3, FF.fin 4⟩).max.width = true
        ∧ (BoxConstraints.mk ⟨FF.fin 1, FF.fin 2⟩ ⟨FF.fin 3, FF.fin 4⟩).min.height.le
          ((BoxConstraints.mk ⟨FF.fin 1, FF.fin 2⟩ ⟨FF.fin 3, FF.fin 4⟩).constrain
            ⟨FF.fin 10, FF.nan⟩).height = true
        ∧ ((BoxConstraints.mk ⟨FF.fin 1, FF.fin 2⟩ ⟨FF.fin 3, FF.fin 4⟩).constrain
            ⟨FF.fin 10, FF.nan⟩).height.le
          (BoxConstraints.mk ⟨FF.fin 1, FF.fin 2⟩ ⟨FF.fin 3, FF.fin 4⟩).max.height = true) :=
  ⟨by decide,
    constrain_returns_size_within_bounds
      (BoxConstraints.mk ⟨FF.fin 1, FF.fin 2⟩ ⟨FF.fin 3, FF.fin 4⟩)
      (by decide) (by decide) ⟨FF.fin 10, FF.nan⟩⟩

/-- C5: for every `BoxConstraints` and finite non-negative `aspect_ratio`
and `width`, if the ideal size `(width, width * aspect_ratio)` is inside
the constraint box, `constrain_aspect_ratio` returns exactly that ideal
size, unchanged. -/
theorem constrain_aspect_ratio_returns_ideal_when_contained
    (bc : BoxConstraints) (aspect_ratio width : FF)
    (har : aspect_ratio.isFinite = true)
    (har0 : (FF.fin 0).le aspect_ratio = true)
    (hw : width.isFinite = true) (hw0 : (FF.fin 0).le width = true)
    (hcont : bc.contains ⟨width, width.mul aspect_ratio⟩ = true) :
    bc.constrain_aspect_ratio aspect_ratio width
      = some ⟨width, width.mul aspect_ratio⟩ :=
  car_of_contains bc aspect_ratio width har har0 hw hw0 hcont

/-- Witness for C5 at `min=(0,0)`, `max=(100,100)`, `aspect_ratio=1`,
`width=50` (the spec §8 example: the result is `(50, 50)`). -/
theorem constrain_aspect_ratio_returns_ideal_when_contained_witness :
    (BoxConstraints.mk ⟨FF.fin 0, FF.fin 0⟩ ⟨FF.fin 100, FF.fin 100⟩).contains
        ⟨FF.fin 50, (FF.fin 50).mul (FF.fin 1)⟩ = true
      ∧ (BoxConstraints.mk ⟨FF.fin 0, FF.fin 0⟩
          ⟨FF.fin 100, FF.fin 100⟩).constrain_aspect_ratio (FF.fin 1) (FF.fin 50)
        = some ⟨FF.fin 50, (FF.fin 50).mul (FF.fin 1)⟩ := by
  have hc : (BoxConstraints.mk ⟨FF.fin 0, FF.fin 0⟩
      ⟨FF.fin 100, FF.fin 100⟩).contains ⟨FF.fin 50, (FF.fin 50).mul (FF.fin 1)⟩ = true := by
    norm_num [BoxConstraints.contains, FF.le, FF.mul]
  exact ⟨hc, constrain_aspect_ratio_returns_ideal_when_contained
    (BoxConstraints.mk ⟨FF.fin 0, FF.fin 0⟩ ⟨FF.fin 100, FF.fin 100⟩)
    (FF.fin 1) (FF.fin 50) (by decide) (by decide) (by decide) (by decide) hc⟩

/-- Helper tautology for the sign analysis in the panic condition. -/
theorem imp_neg_iff_aux (a b : ℚ) : ((0 ≤ a → b < 0) ↔ (a < 0 ∨ b < 0)) := by
  constructor
  · intro h
    rcases lt_or_ge a 0 with h1 | h1
    · exact Or.inl h1
    · exact Or.inr (h h1)
  · intro h h1
    rcases h with h | h
    · linarith
    · exact h

/-- C6: `constrain_aspect_ratio(aspect_ratio, width)` panics (modelled as
`none`) exactly when `aspect_ratio` or `width` is NaN, infinite, or
negative; otherwise it returns normally, whatever the constraint values. -/
theorem constrain_aspect_ratio_panics_iff_invalid_input
    (bc : BoxConstraints) (aspect_ratio width : FF) :
    bc.constrain_aspect_ratio aspect_ratio width = none ↔
      (aspect_ratio.isNan = true ∨ aspect_ratio.isInfinite = true
          ∨ aspect_ratio.lt (FF.fin 0) = true
        ∨ width.isNan = true ∨ width.isInfinite = true
          ∨ width.lt (FF.fin 0) = true) := by
  cases aspect_ratio <;> cases width <;>
    simp [BoxConstraints.constrain_aspect_ratio, FF.isNan, FF.isInfinite,
      FF.isFinite, FF.le, FF.lt, not_le]
  all_goals exact imp_neg_iff_aux _ _

/-- C1 (failing input): for `min=(10,10)`, `max=(100,100)`,
`aspect_ratio = 1/2`, `width = 15`, the code returns `(100, 50)`; yet
`(20, 10)` is inside the box, both candidates have `height/width` ratio
exactly `1/2` (the optimum, since the ratio line crosses the box), and
`|20 - 15| < |100 - 15|`.  So the returned size does not have the width
nearest the supplied `width` among the optimal-ratio sizes, contradicting
the function's own documentation and the spec. -/
theorem constrain_aspect_ratio_tie_break_bug :
    (BoxConstraints.mk ⟨FF.fin 10, FF.fin 10⟩
        ⟨FF.fin 100, FF.fin 100⟩).constrain_aspect_ratio
        (FF.fin (1/2)) (FF.fin 15) = some ⟨FF.fin 100, FF.fin 50⟩
      ∧ (BoxConstraints.mk ⟨FF.fin 10, FF.fin 10⟩
          ⟨FF.fin 100, FF.fin 100⟩).contains ⟨FF.fin 20, FF.fin 10⟩ = true
      ∧ (FF.fin 10).div (FF.fin 20) = FF.fin (1/2)
      ∧ (FF.fin 50).div (FF.fin 100) = FF.fin (1/2)
      ∧ ((FF.fin 20).sub (FF.fin 15)).abs.lt
          ((FF.fin 100).sub (FF.fin 15)).abs = true := by
  refine ⟨?_, by decide, ?_, ?_, ?_⟩
  · norm_num [BoxConstraints.constrain_aspect_ratio,
      BoxConstraints.constrain_aspect_ratio_body, BoxConstraints.contains,
      FF.isFinite, FF.le, FF.lt, FF.mul, FF.div, FF.abs, FF.recip,
      abs_of_nonneg]
  · norm_num [FF.div]
  · norm_num [FF.div]
  · norm_num [FF.sub, FF.abs, FF.lt]

/-- C7 (counterexample): `BoxConstraints::new` performs no validation, so
with the non-NaN input `min = (-1, -1)`, `max = (0, 0)` it produces a
value whose min width is `-1`, violating `0 ≤ min.width` (and hence the
claimed type invariant). -/
theorem new_violates_invariant_on_negative_min :
    (BoxConstraints.new ⟨FF.fin (-1), FF.fin (-1)⟩
        ⟨FF.fin 0, FF.fin 0⟩).min.width = FF.fin (-1)
      ∧ (FF.fin 0).le (BoxConstraints.new ⟨FF.fin (-1), FF.fin (-1)⟩
          ⟨FF.fin 0, FF.fin 0⟩).min.width = false
      ∧ (BoxConstraints.new ⟨FF.fin (-1), FF.fin (-1)⟩
          ⟨FF.fin 0, FF.fin 0⟩).invariantHolds = false := by
  have h : (BoxConstraints.new ⟨FF.fin (-1), FF.fin (-1)⟩
      ⟨FF.fin 0, FF.fin 0⟩) = BoxConstraints.mk ⟨FF.fin (-1), FF.fin (-1)⟩
      ⟨FF.fin 0, FF.fin 0⟩ := by
    simp [BoxConstraints.new, Size.expand, FF.expand]
  rw [h]
  refine ⟨rfl, by decide, ?_⟩
  simp [BoxConstraints.invariantHolds, BoxConstraints.isValid, FF.le,
    FF.isFinite, FF.expand]

namespace FF

theorem ne_nan_of_isFinite {a : FF} (h : a.isFinite = true) : a ≠ nan := by
  cases a <;> simp [isFinite] at h ⊢

theorem sub_le_sub_right_ff {a b c : FF} (ha : a.isFinite = true)
    (hab : a.le b = true) (hc : c.isFinite = true) :
    (a.sub c).le (b.sub c) = true := by
  cases a <;> cases b <;> cases c <;>
    simp [isFinite, le, sub] at ha hab hc ⊢
  linarith

theorem fmax_zero_mono {a b : FF} (hab : a.le b = true) :
    (a.fmax (fin 0)).le (b.fmax (fin 0)) = true := by
  cases a <;> cases b <;>
    simp only [le, fmax, decide_eq_true_eq, Bool.false_eq_true] at hab ⊢ <;>
    first
    | exact max_le_max hab le_rfl
    | simp

theorem fmax_zero_isFinite {a : FF} (ha : a.isFinite = true) :
    (a.fmax (fin 0)).isFinite = true := by
  cases a <;> simp [isFinite, fmax] at ha ⊢

theorem sub_isFinite {a c : FF} (ha : a.isFinite = true)
    (hc : c.isFinite = true) : (a.sub c).isFinite = true := by
  cases a <;> cases c <;> simp [isFinite, sub] at ha hc ⊢

end FF

/-- Shared helper: `BoxConstraints::new` establishes the construction
invariant whenever its inputs already satisfy `0 ≤ min ≤ max`
componentwise with finite `min`. -/
theorem new_invariantHolds (mn mx : Size)
    (h1 : (FF.fin 0).le mn.width = true) (h2 : mn.width.le mx.width = true)
    (h3 : (FF.fin 0).le mn.height = true) (h4 : mn.height.le mx.height = true)
    (h5 : mn.width.isFinite = true) (h6 : mn.height.isFinite = true) :
    (BoxConstraints.new mn mx).invariantHolds = true := by
  simp only [BoxConstraints.new, BoxConstraints.invariantHolds,
    BoxConstraints.isValid, Size.expand]
  simp [FF.expand_nonneg h1, FF.expand_mono_nonneg h1 h2, FF.expand_nonneg h3,
    FF.expand_mono_nonneg h3 h4, FF.expand_isFinite h5, FF.expand_isFinite h6,
    FF.expand_expand]

/-- C7 (amended): the constructors establish the type invariant under
their documented preconditions: `new` with `0 ≤ min ≤ max` componentwise
and finite `min`; `tight` with a finite non-negative size; `loosen` on a
receiver satisfying the invariant; `shrink` on a receiver satisfying the
invariant with finite *non-negative* `diff` (a padding/border inset, the
spec's use of `shrink`).  Non-negativity matters beyond the model: with a
negative `diff` the `f64` subtraction `min - diff` can overflow to `+∞`
(e.g. `1e308 - (-1e308)`), breaking the finite-minimum conjunct; for
non-negative finite `diff` and an invariant-satisfying receiver both
operands of each subtraction are non-negative finite, so the exact
difference's magnitude is bounded by the larger operand and `f64` cannot
overflow, and the invariant only needs finiteness and monotonicity, both
of which survive `f64`'s rounding of the subtraction. -/
theorem constructors_establish_invariant_under_preconditions :
    (∀ mn mx : Size, (FF.fin 0).le mn.width = true →
      mn.width.le mx.width = true → (FF.fin 0).le mn.height = true →
      mn.height.le mx.height = true → mn.width.isFinite = true →
      mn.height.isFinite = true →
      (BoxConstraints.new mn mx).invariantHolds = true)
    ∧ (∀ sz : Size, (FF.fin 0).le sz.width = true →
        (FF.fin 0).le sz.height = true → sz.width.isFinite = true →
        sz.height.isFinite = true →
        (BoxConstraints.tight sz).invariantHolds = true)
    ∧ (∀ bc : BoxConstraints, bc.invariantHolds = true →
        bc.loosen.invariantHolds = true)
    ∧ (∀ bc : BoxConstraints, ∀ diff : Size, bc.invariantHolds = true →
        diff.width.isFinite = true → diff.height.isFinite = true →
        (FF.fin 0).le diff.width = true → (FF.fin 0).le diff.height = true →
        (bc.shrink diff).invariantHolds = true) := by
  refine ⟨new_invariantHolds, ?_, ?_, ?_⟩
  · intro sz h1 h2 h3 h4
    have hw := FF.ne_nan_of_isFinite (FF.expand_isFinite h3)
    have hh := FF.ne_nan_of_isFinite (FF.expand_isFinite h4)
    simp only [BoxConstraints.tight, BoxConstraints.invariantHolds,
      BoxConstraints.isValid, Size.expand]
    simp [FF.expand_nonneg h1, FF.expand_nonneg h2, FF.le_refl_of_ne_nan hw,
      FF.le_refl_of_ne_nan hh, FF.expand_isFinite h3, FF.expand_isFinite h4,
      FF.expand_expand]
  · intro bc h
    simp only [BoxConstraints.invariantHolds, BoxConstraints.isValid,
      Bool.and_eq_true, decide_eq_true_eq] at h
    obtain ⟨⟨⟨⟨⟨⟨⟨⟨⟨h1, h2⟩, h3⟩, h4⟩, h5⟩, h6⟩, hr1⟩, hr2⟩, hr3⟩, hr4⟩ := h
    have hz : (FF.fin 0).expand = FF.fin 0 := by simp [FF.expand]
    simp only [BoxConstraints.loosen, BoxConstraints.invariantHolds,
      BoxConstraints.isValid, Size.ZERO]
    have h00 : (FF.fin 0).le (FF.fin 0) = true := by decide
    simp [FF.le_trans h1 h2, FF.le_trans h3 h4, hr3, hr4, hz, h00,
      FF.isFinite]
  · intro bc diff h hd1 hd2 hd3 hd4
    simp only [BoxConstraints.invariantHolds, BoxConstraints.isValid,
      Bool.and_eq_true, decide_eq_true_eq] at h
    obtain ⟨⟨⟨⟨⟨⟨⟨⟨⟨h1, h2⟩, h3⟩, h4⟩, h5⟩, h6⟩, hr1⟩, hr2⟩, hr3⟩, hr4⟩ := h
    have hdw := FF.expand_isFinite hd1
    have hdh := FF.expand_isFinite hd2
    simp only [BoxConstraints.shrink, Size.expand]
    apply new_invariantHolds
    · exact FF.le_fmax_right (by simp)
    · exact FF.fmax_zero_mono (FF.sub_le_sub_right_ff h5 h2 hdw)
    · exact FF.le_fmax_right (by simp)
    · exact FF.fmax_zero_mono (FF.sub_le_sub_right_ff h6 h4 hdh)
    · exact FF.fmax_zero_isFinite (FF.sub_isFinite h5 hdw)
    · exact FF.fmax_zero_isFinite (FF.sub_isFinite h6 hdh)

/-- Witness for C7 (amended): each constructor applied at concrete inputs
meeting its precondition yields a value satisfying the invariant. -/
theorem constructors_establish_invariant_witness :
    (BoxConstraints.new ⟨FF.fin 1, FF.fin 2⟩ ⟨FF.fin 3, FF.pinf⟩).invariantHolds
        = true
      ∧ (BoxConstraints.tight ⟨FF.fin 5, FF.fin 7⟩).invariantHolds = true
      ∧ (BoxConstraints.mk ⟨FF.fin 1, FF.fin 2⟩
          ⟨FF.fin 3, FF.fin 4⟩).loosen.invariantHolds = true
      ∧ ((BoxConstraints.mk ⟨FF.fin 1, FF.fin 2⟩
          ⟨FF.fin 3, FF.fin 4⟩).shrink ⟨FF.fin 1, FF.fin 1⟩).invariantHolds
        = true := by
  have t := constructors_establish_invariant_under_preconditions
  exact ⟨t.1 ⟨FF.fin 1, FF.fin 2⟩ ⟨FF.fin 3, FF.pinf⟩ (by decide) (by decide)
      (by decide) (by decide) (by decide) (by decide),
    t.2.1 ⟨FF.fin 5, FF.fin 7⟩ (by decide) (by decide) (by decide) (by decide),
    t.2.2.1 (BoxConstraints.mk ⟨FF.fin 1, FF.fin 2⟩ ⟨FF.fin 3, FF.fin 4⟩)
      (by decide),
    t.2.2.2 (BoxConstraints.mk ⟨FF.fin 1, FF.fin 2⟩ ⟨FF.fin 3, FF.fin 4⟩)
      ⟨FF.fin 1, FF.fin 1⟩ (by decide) (by decide) (by decide) (by decide)
      (by decide)⟩

/-- C9 (counterexample): with `ObjectFit::None`, an 8×8 image, and the
valid constraints `min=(10,10)`, `max=(100,100)`, `Image::layout` returns
the raw image size `(8, 8)`, which does not satisfy the constraints. -/
theorem image_layout_none_violates_constraints :
    (BoxConstraints.mk ⟨FF.fin 10, FF.fin 10⟩ ⟨FF.fin 100, FF.fin 100⟩).isValid
        = true
      ∧ Image.layout ⟨8, 8, ObjectFit.None⟩
          (BoxConstraints.mk ⟨FF.fin 10, FF.fin 10⟩ ⟨FF.fin 100, FF.fin 100⟩)
        = some ⟨FF.fin 8, FF.fin 8⟩
      ∧ (BoxConstraints.mk ⟨FF.fin 10, FF.fin 10⟩
          ⟨FF.fin 100, FF.fin 100⟩).contains ⟨FF.fin 8, FF.fin 8⟩ = false := by
  refine ⟨by decide, ?_, by decide⟩
  norm_num [Image.layout, Size.is_zero_area, Size.area, FF.mul]

/-- C9 (amended): for the default `ObjectFit::Fill` mode, any image
buffer, and every `BoxConstraints` satisfying the type invariant,
`Image::layout` returns a size satisfying the constraints. -/
theorem image_layout_fill_within_constraints (img : Image)
    (bc : BoxConstraints) (hfit : img.object_fit = ObjectFit.Fill)
    (hv : bc.isValid = true) :
    ∃ s, img.layout bc = some s ∧ bc.contains s = true := by
  simp only [BoxConstraints.isValid, Bool.and_eq_true] at hv
  obtain ⟨⟨⟨⟨⟨h1, h2⟩, h3⟩, h4⟩, h5⟩, h6⟩ := hv
  have hwn : bc.min.width ≠ FF.nan := FF.ne_nan_of_le_right h1
  have hhn : bc.min.height ≠ FF.nan := FF.ne_nan_of_le_right h3
  have hwx : bc.max.width ≠ FF.nan := FF.ne_nan_of_le_right h2
  have hhx : bc.max.height ≠ FF.nan := FF.ne_nan_of_le_right h4
  simp only [Image.layout, hfit]
  split
  · exact ⟨bc.min, rfl, by
      simp [BoxConstraints.contains, FF.le_refl_of_ne_nan hwn,
        FF.le_refl_of_ne_nan hhn, h2, h4]⟩
  · exact ⟨bc.max, rfl, by
      simp [BoxConstraints.contains, FF.le_refl_of_ne_nan hwx,
        FF.le_refl_of_ne_nan hhx, h2, h4]⟩

/-- Witness for C9 (amended): an 8×8 image in `Fill` mode under
`min=(10,10)`, `max=(100,100)`. -/
theorem image_layout_fill_within_constraints_witness :
    ∃ s, Image.layout ⟨8, 8, ObjectFit.Fill⟩
          (BoxConstraints.mk ⟨FF.fin 10, FF.fin 10⟩ ⟨FF.fin 100, FF.fin 100⟩)
        = some s
      ∧ (BoxConstraints.mk ⟨FF.fin 10, FF.fin 10⟩
          ⟨FF.fin 100, FF.fin 100⟩).contains s = true :=
  image_layout_fill_within_constraints ⟨8, 8, ObjectFit.Fill⟩
    (BoxConstraints.mk ⟨FF.fin 10, FF.fin 10⟩ ⟨FF.fin 100, FF.fin 100⟩)
    rfl (by decide)

theorem AggOk_mem {st : WidgetState} {cs : List WTree}
    (h : AggOk (.node st cs)) : ∀ c ∈ cs, AggOk c := by
  cases h
  assumption

theorem AggOk_eq {st : WidgetState} {cs : List WTree}
    (h : AggOk (.node st cs)) :
    st.aggFlags = Flags.orF st.localFlags (subtreeOrList cs) := by
  cases h
  assumption

theorem rootAgg_eq_subtreeOr {t : WTree} (h : AggOk t) :
    t.rootState.aggFlags = subtreeOr t := by
  cases t with
  | node st cs => simpa [WTree.rootState, subtreeOr] using AggOk_eq h

theorem aggOrList_eq_subtreeOrList {cs : List WTree}
    (h : ∀ c ∈ cs, AggOk c) : aggOrList cs = subtreeOrList cs := by
  induction cs with
  | nil => rfl
  | cons c cs ih =>
      simp only [aggOrList, subtreeOrList]
      rw [rootAgg_eq_subtreeOr (h c (by simp)),
        ih (fun x hx => h x (by simp [hx]))]

theorem merge_state_up_AggOk {st : WidgetState} {cs : List WTree}
    (h : ∀ c ∈ cs, AggOk c) : AggOk (merge_state_up (.node st cs)) := by
  simp only [merge_state_up]
  exact AggOk.node (by rw [aggOrList_eq_subtreeOrList h]) h

theorem updateNth_mem {g : WTree → WTree} {cs : List WTree}
    (h : ∀ c ∈ cs, AggOk c) (hg : ∀ c, AggOk c → AggOk (g c)) :
    ∀ i, ∀ c ∈ updateNth g cs i, AggOk c := by
  induction cs with
  | nil => intro i c hc; simp [updateNth] at hc
  | cons t ts ih =>
      intro i c hc
      cases i with
      | zero =>
          simp only [updateNth, List.mem_cons] at hc
          rcases hc with rfl | hc
          · exact hg t (h t (by simp))
          · exact h c (by simp [hc])
      | succ n =>
          simp only [updateNth, List.mem_cons] at hc
          rcases hc with rfl | hc
          · exact h c (by simp)
          · exact ih (fun x hx => h x (by simp [hx])) n c hc

theorem mutate_widget_AggOk (f : Flags → Flags) (p : List ℕ) :
    ∀ t, AggOk t → AggOk (mutate_widget f p t) := by
  induction p with
  | nil =>
      intro t h
      cases t with
      | node st cs => exact merge_state_up_AggOk (AggOk_mem h)
  | cons i p ih =>
      intro t h
      cases t with
      | node st cs =>
          exact merge_state_up_AggOk
            (updateNth_mem (AggOk_mem h) (fun c hc => ih c hc) i)

theorem AggOk_nodeAt {u : WTree} :
    ∀ (p : List ℕ) (t : WTree), AggOk t → nodeAt t p = some u → AggOk u := by
  intro p
  induction p with
  | nil =>
      intro t ht hu
      simp only [nodeAt, Option.some_inj] at hu
      exact hu ▸ ht
  | cons i p ih =>
      intro t ht hu
      cases t with
      | node st cs =>
          simp only [nodeAt] at hu
          cases hget : cs.get? i with
          | none => rw [hget] at hu; exact absurd hu (by simp)
          | some c =>
              rw [hget] at hu
              exact ih c (AggOk_mem ht c (List.get?_mem hget)) hu

/-- C2: after `mutate_widget(root, id, closure)` returns, at the mutated
node (`n ≥ path.length`) and at every ancestor on the path from that node
to the root (each shorter prefix `path.take n`), each per-kind aggregated
invalidity flag equals the logical OR of that node's own local flag and
the local flags of all its descendants — restored by the
`merge_state_up` walk from the target up to the root.  The tree is assumed
to satisfy the aggregation invariant before the mutation. -/
theorem mutate_widget_restores_aggregation_invariant (t : WTree)
    (path : List ℕ) (f : Flags → Flags) (h : AggOk t) (n : ℕ) (u : WTree)
    (hu : nodeAt (mutate_widget f path t) (path.take n) = some u) :
    u.rootState.aggFlags
      = Flags.orF u.rootState.localFlags (subtreeOrList u.childrenOf) := by
  have h2 := AggOk_nodeAt (path.take n) (mutate_widget f path t)
    (mutate_widget_AggOk f path t h) hu
  cases u with
  | node st cs =>
      simpa [WTree.rootState, WTree.childrenOf] using AggOk_eq h2

/-- The concrete closure effect used by the C2 witness: invalidate
layout at the target. -/
def invalidateLayout : Flags → Flags :=
  fun fl => ⟨true, fl.paintInvalid, fl.accessInvalid, fl.pendingMutation⟩

/-- The concrete two-node tree used by the C2 witness, with all flags
initially clear (which satisfies the aggregation invariant). -/
def exampleTree : WTree :=
  .node ⟨Flags.zero, Flags.zero⟩ [.node ⟨Flags.zero, Flags.zero⟩ []]

/-- Witness for C2: mutating the child of a two-node tree, then reading
the root (the prefix `[]` of the path `[0]`). -/
theorem mutate_widget_restores_aggregation_invariant_witness :
    (mutate_widget invalidateLayout [0] exampleTree).rootState.aggFlags
      = Flags.orF
          (mutate_widget invalidateLayout [0] exampleTree).rootState.localFlags
          (subtreeOrList
            (mutate_widget invalidateLayout [0] exampleTree).childrenOf) := by
  have h0 : AggOk exampleTree := by
    refine AggOk.node rfl ?_
    intro c hc
    simp only [List.mem_singleton] at hc
    subst hc
    refine AggOk.node rfl ?_
    intro c hc
    simp at hc
  exact mutate_widget_restores_aggregation_invariant exampleTree [0]
    invalidateLayout h0 0 _ rfl

/-- Shared helper for the mutate pass: folding a callback list through
`mutate_widget_entry` appends exactly the tags of the list, in order, to
the execution log, and appends exactly the callbacks the list's closures
enqueue, in order, to the pending list. -/
theorem foldl_mutate_widget_entry (cbs : List Callback) (r : RenderRoot) :
    (cbs.foldl mutate_widget_entry r).execLog
        = r.execLog ++ cbs.map Callback.tag
      ∧ (cbs.foldl mutate_widget_entry r).mutate_callbacks
        = r.mutate_callbacks ++ (cbs.map Callback.enq).flatten := by
  induction cbs generalizing r with
  | nil => simp
  | cons c cs ih =>
      simp only [List.foldl_cons, List.map_cons, List.flatten]
      rcases ih (mutate_widget_entry r c) with ⟨h1, h2⟩
      constructor
      · rw [h1]
        simp [mutate_widget_entry]
      · rw [h2]
        simp [mutate_widget_entry]

/-- C3: every `(WidgetId, closure)` pair present in the pending queue when
`run_mutate_pass` is called is executed through `mutate_widget` exactly
once, in FIFO enqueue order, all before the pass returns: the execution
log grows by exactly the queued tags, in queue order. -/
theorem run_mutate_pass_executes_queue_fifo (root : RenderRoot) :
    (run_mutate_pass root).execLog
      = root.execLog ++ root.mutate_callbacks.map Callback.tag :=
  (foldl_mutate_widget_entry root.mutate_callbacks
    { root with mutate_callbacks := [] }).1

/-- C10: callbacks enqueued while `run_mutate_pass` runs (by the callbacks
it executes) are not executed in that same pass — the log grows by exactly
the tags of the pre-existing queue — and when the pass returns the pending
list holds exactly the newly enqueued pairs, in enqueue order. -/
theorem run_mutate_pass_defers_reentrant_enqueues (root : RenderRoot) :
    (run_mutate_pass root).mutate_callbacks
        = (root.mutate_callbacks.map Callback.enq).flatten
      ∧ (run_mutate_pass root).execLog
        = root.execLog ++ root.mutate_callbacks.map Callback.tag := by
  have h := foldl_mutate_widget_entry root.mutate_callbacks
    { root with mutate_callbacks := [] }
  exact ⟨by simpa using h.2, h.1⟩

/-- C8 (counterexample): for the valid constraints `min=(5,3)`,
`max=(∞,10)` (invariant satisfied: `0 ≤ min ≤ max`, finite min) with
`aspect_ratio = 0`, `width = 2`, the first call returns `s = (∞, 3)`,
which lies inside the constraint box; but re-applying with `s.width = ∞`
panics (the `width.is_finite()` assert), so the re-application is not the
identity on `s`. -/
theorem constrain_aspect_ratio_reapply_panics :
    (BoxConstraints.mk ⟨FF.fin 5, FF.fin 3⟩ ⟨FF.pinf, FF.fin 10⟩).isValid
        = true
      ∧ (BoxConstraints.mk ⟨FF.fin 5, FF.fin 3⟩
          ⟨FF.pinf, FF.fin 10⟩).constrain_aspect_ratio (FF.fin 0) (FF.fin 2)
        = some ⟨FF.pinf, FF.fin 3⟩
      ∧ (BoxConstraints.mk ⟨FF.fin 5, FF.fin 3⟩
          ⟨FF.pinf, FF.fin 10⟩).contains ⟨FF.pinf, FF.fin 3⟩ = true
      ∧ (BoxConstraints.mk ⟨FF.fin 5, FF.fin 3⟩
          ⟨FF.pinf, FF.fin 10⟩).constrain_aspect_ratio (FF.fin 0) FF.pinf
        = none := by
  refine ⟨by decide, ?_, by decide, ?_⟩
  · norm_num [BoxConstraints.constrain_aspect_ratio,
      BoxConstraints.constrain_aspect_ratio_body, BoxConstraints.contains,
      FF.isFinite, FF.le, FF.lt, FF.mul, FF.div, FF.abs, FF.recip,
      abs_of_nonneg]
  · norm_num [BoxConstraints.constrain_aspect_ratio, FF.isFinite]

/-- Helper: extract the rational from a finite `FF` value. -/
theorem isFinite_exists {x : FF} (h : x.isFinite = true) :
    ∃ q : ℚ, x = FF.fin q := by
  cases x with
  | fin q => exact ⟨q, rfl⟩
  | nan => simp [FF.isFinite] at h
  | pinf => simp [FF.isFinite] at h
  | ninf => simp [FF.isFinite] at h

/-- Helper: a size already of the shape `(v, v * ar)` that lies in the
box is returned unchanged by `constrain_aspect_ratio` at its own width. -/
theorem car_at_own_width (bc : BoxConstraints) (ar : FF) (s : Size)
    (har : ar.isFinite = true) (har0 : (FF.fin 0).le ar = true)
    (hfw : s.width.isFinite = true) (hw0 : (FF.fin 0).le s.width = true)
    (hh : s.width.mul ar = s.height) (hin : bc.contains s = true) :
    bc.constrain_aspect_ratio ar s.width = some s := by
  obtain ⟨w, h⟩ := s
  simp only at hh hfw hw0 hin
  subst hh
  exact car_of_contains bc ar w har har0 hfw hw0 hin

/-- C8 (amended): for every `BoxConstraints` satisfying the type
invariant (`0 ≤ min ≤ max` componentwise, finite `min`) and every finite
non-negative `aspect_ratio` and `width`, let
`s = constrain_aspect_ratio(aspect_ratio, width)`; if `s` lies within the
constraint box, `s.width` is finite, and `s` lies on the *computed*
aspect-ratio line — its height is the value `s.width * aspect_ratio`, as
holds for the ideal-size result and for the min-width-edge and
max-width-edge results, whose heights the source computes by exactly that
multiplication — then re-applying with the same `aspect_ratio` and
`s.width` returns `s` again.  The `max.height * aspect_ratio.recip()`
results are excluded: under `f64` rounding, re-multiplying the divided
width by `aspect_ratio` need not give back `max.height` (e.g. at
`min=(10,10)`, `max=(100,100)`, `aspect_ratio=3`, `width=200` the result
is `(100·recip(3), 100)` and the re-application returns the perturbed,
in-box ideal size instead), so re-application is not the identity there.
The proof below only replays the early-return branch on bit-identical
inputs — the second call re-computes the very same product
`s.width * aspect_ratio` — so it does not rely on the exactness of the
model's arithmetic. -/
theorem constrain_aspect_ratio_idempotent_on_computed_line
    (bc : BoxConstraints) (aspect_ratio width : FF)
    (hv : bc.isValid = true)
    (har : aspect_ratio.isFinite = true)
    (har0 : (FF.fin 0).le aspect_ratio = true)
    (_hw : width.isFinite = true) (_hw0 : (FF.fin 0).le width = true)
    (s : Size)
    (_hs : bc.constrain_aspect_ratio aspect_ratio width = some s)
    (hin : bc.contains s = true) (hfw : s.width.isFinite = true)
    (hh : s.height = s.width.mul aspect_ratio) :
    bc.constrain_aspect_ratio aspect_ratio s.width = some s := by
  have h1 : (FF.fin 0).le bc.min.width = true := by
    simp only [BoxConstraints.isValid, Bool.and_eq_true] at hv
    exact hv.1.1.1.1.1
  have h2 : bc.min.width.le s.width = true := by
    simp only [BoxConstraints.contains, Bool.and_eq_true] at hin
    exact hin.1.1
  exact car_at_own_width bc aspect_ratio s har har0 hfw
    (FF.le_trans h1 h2) hh.symm hin

/-- Witness for C8 (amended) at `min=(10,10)`, `max=(100,100)`,
`aspect_ratio = 2`, `width = 5`: the result `(10, 20)` sits on the
min-width edge with height computed as `10 * 2`, is in-box with finite
width, and re-application returns it again. -/
theorem constrain_aspect_ratio_idempotent_witness :
    (BoxConstraints.mk ⟨FF.fin 10, FF.fin 10⟩
        ⟨FF.fin 100, FF.fin 100⟩).constrain_aspect_ratio (FF.fin 2)
        (FF.fin 5) = some ⟨FF.fin 10, FF.fin 20⟩
      ∧ (BoxConstraints.mk ⟨FF.fin 10, FF.fin 10⟩
          ⟨FF.fin 100, FF.fin 100⟩).contains ⟨FF.fin 10, FF.fin 20⟩ = true
      ∧ (FF.fin 10).isFinite = true
      ∧ FF.fin 20 = (FF.fin 10).mul (FF.fin 2)
      ∧ (BoxConstraints.mk ⟨FF.fin 10, FF.fin 10⟩
          ⟨FF.fin 100, FF.fin 100⟩).constrain_aspect_ratio (FF.fin 2)
          (Size.mk (FF.fin 10) (FF.fin 20)).width
        = some ⟨FF.fin 10, FF.fin 20⟩ := by
  have hs : (BoxConstraints.mk ⟨FF.fin 10, FF.fin 10⟩
      ⟨FF.fin 100, FF.fin 100⟩).constrain_aspect_ratio (FF.fin 2)
      (FF.fin 5) = some ⟨FF.fin 10, FF.fin 20⟩ := by
    norm_num [BoxConstraints.constrain_aspect_ratio,
      BoxConstraints.constrain_aspect_ratio_body, BoxConstraints.contains,
      FF.isFinite, FF.le, FF.lt, FF.mul, FF.div, FF.abs, FF.recip,
      abs_of_nonneg]
  have hh : FF.fin 20 = (FF.fin 10).mul (FF.fin 2) := by
    norm_num [FF.mul]
  exact ⟨hs, by decide, by decide, hh,
    constrain_aspect_ratio_idempotent_on_computed_line
      (BoxConstraints.mk ⟨FF.fin 10, FF.fin 10⟩ ⟨FF.fin 100, FF.fin 100⟩)
      (FF.fin 2) (FF.fin 5) (by decide) (by decide) (by decide) (by decide)
      (by decide) ⟨FF.fin 10, FF.fin 20⟩ hs (by decide) (by decide) hh⟩
